import Mathlib

/-!
Verification of the ray-propagation core of the Tracer optics library
(`tracer/ray_bundle.py`, `tracer/flat_surface.py`, `tracer/optics_callables.py`,
`tracer/tracer_engine.py`).  The repository snapshot ships only the unit tests
(`tests/test_opt_callable.py`) and an example driver; the library modules
themselves are absent, so every operation below is modelled from the design
specification, with the shipped tests fixing the behaviour wherever the
specification leaves a choice open.  Real-valued quantities are modelled over
`ℝ` (the exact idealisation of the floating-point arithmetic used by the code).
-/

noncomputable section

namespace Tracer

/-- A 3D vector, the element type of a bundle's `positions`/`directions`
columns (numpy 3×N arrays in the code, one column per ray). -/
structure Vec3 where
  x : ℝ
  y : ℝ
  z : ℝ
  deriving DecidableEq

namespace Vec3

/-- Componentwise sum, `u + v`. -/
def add (u v : Vec3) : Vec3 := ⟨u.x + v.x, u.y + v.y, u.z + v.z⟩

/-- Componentwise difference, `u - v`. -/
def sub (u v : Vec3) : Vec3 := ⟨u.x - v.x, u.y - v.y, u.z - v.z⟩

/-- Scalar multiple `c * v`. -/
def smul (c : ℝ) (v : Vec3) : Vec3 := ⟨c * v.x, c * v.y, c * v.z⟩

/-- Euclidean inner product `(u*v).sum(axis=0)` of the code. -/
def dot (u v : Vec3) : ℝ := u.x * v.x + u.y * v.y + u.z * v.z

/-- The zero vector, used as the out-of-range default for column lookups. -/
def zero : Vec3 := ⟨0, 0, 0⟩

end Vec3

/-- Modelled from the spec: the Ray Bundle, "a columnar, vectorized
collection of rays (positions, directions, energies, refractive indices,
parent lineage)"; `tracer/ray_bundle.py` is absent from the snapshot.  Each
field is the ordered per-ray column of the corresponding numpy array. -/
structure RayBundle where
  vertices : List Vec3
  directions : List Vec3
  energy : List ℝ
  ref_index : List ℝ
  parents : List ℕ

/-- Column lookup `arr[:, i]` with an out-of-range default (the code indexes
with numpy fancy indexing; callers guarantee the indices are in range). -/
def colD {α : Type} (l : List α) (d : α) (i : ℕ) : α := l.getD i d

/-- Fancy-indexed selection `arr[:, selector]`: the sub-sequence of `l` at
the positions listed in `selector`, in `selector` order. -/
def selectCols {α : Type} (l : List α) (d : α) (selector : List ℕ) : List α :=
  selector.map (colD l d)

namespace RayBundle

/-- Accessor `bund.get_directions()[:, i]`. -/
def dirAt (b : RayBundle) (i : ℕ) : Vec3 := colD b.directions Vec3.zero i

/-- Accessor `bund.get_vertices()[:, i]`. -/
def posAt (b : RayBundle) (i : ℕ) : Vec3 := colD b.vertices Vec3.zero i

/-- Accessor `bund.get_energy()[i]`. -/
def energyAt (b : RayBundle) (i : ℕ) : ℝ := colD b.energy 0 i

/-- Accessor `bund.get_ref_index()[i]`. -/
def refIndexAt (b : RayBundle) (i : ℕ) : ℝ := colD b.ref_index 0 i

end RayBundle

/-! ### Flat surface geometry

Modelled from the spec (§4.2): `tracer/flat_surface.py` is absent from the
snapshot.  The `FlatGeometryManager` places an infinite plane; the tests
exercise it with the identity placement `N.eye(4)`, i.e. the plane `z = 0`
with "up" normal `(0,0,1)`, which is what is modelled here. -/

/-- Operation `find_intersections(N.eye(4), bund)` for one ray: the parametric distance
`t` along `d` from `p` to the plane `z = 0`; `none` is the no-intersection
sentinel for rays parallel to the plane or travelling away from it
("intersection parameter must represent forward travel only"). -/
def flatParam (p d : Vec3) : Option ℝ :=
  if d.z = 0 then none
  else
    let t := -p.z / d.z
    if 0 < t then some t else none

/-- The parametric distance to the plane `z = 0`, unguarded (used for the
hit points of rays already selected as hitting the surface). -/
def flatT (p d : Vec3) : ℝ := -p.z / d.z

/-- Operation `get_intersection_points_global()` for one selected ray: `p + t*d` on the
plane `z = 0`. -/
def flatHit (p d : Vec3) : Vec3 := p.add (Vec3.smul (flatT p d) d)

/-- Operation `get_normals()` for one selected ray: the plane's unit normal, flipped to
face the incoming ray ("flip-to-face-the-ray convention"). -/
def flatNormal (d : Vec3) : Vec3 :=
  if d.z < 0 then ⟨0, 0, 1⟩ else ⟨0, 0, -1⟩

/-- The geometry manager's hit points for a selected sub-bundle
(`select_rays(selector)` then `get_intersection_points_global()`). -/
def flatHits (b : RayBundle) (selector : List ℕ) : List Vec3 :=
  selector.map (fun i => flatHit (b.posAt i) (b.dirAt i))

/-- The geometry manager's normals for a selected sub-bundle
(`select_rays(selector)` then `get_normals()`). -/
def flatNormals (b : RayBundle) (selector : List ℕ) : List Vec3 :=
  selector.map (fun i => flatNormal (b.dirAt i))

/-! ### Reflective optics -/

/-- Specular reflection of direction `d` about unit normal `n`:
`d - 2*(d·n)*n` (`optics.reflections` in the code). -/
def mirror (d n : Vec3) : Vec3 := d.sub (Vec3.smul (2 * d.dot n) n)

/-- Modelled from the spec: `optics_callables.Reflective(absorptivity)`;
`tracer/optics_callables.py` is absent from the snapshot.  "outgoing
direction = incoming direction mirrored about the surface normal at the hit
point; outgoing position = hit point; outgoing energy = incoming energy ×
(1 − a); parents = selected_indices unchanged (1-to-1)."  `hits` and
`normals` are the geometry manager's answers for the selected rays. -/
def reflectiveCall (a : ℝ) (hits normals : List Vec3) (b : RayBundle)
    (selector : List ℕ) : RayBundle where
  vertices := hits
  directions := List.zipWith mirror (selectCols b.directions Vec3.zero selector) normals
  energy := selector.map (fun i => b.energyAt i * (1 - a))
  ref_index := selectCols b.ref_index 0 selector
  parents := selector

/-- Positional lookup through `map`: for an in-range position the default is
irrelevant and the lookup commutes with the map. -/
theorem getD_map_lt {α β : Type} (f : α → β) (l : List α) (dα : α) (dβ : β)
    (k : ℕ) (hk : k < l.length) :
    (l.map f).getD k dβ = f (l.getD k dα) := by
  rw [List.getD_eq_getElem _ _ (by simpa using hk), List.getD_eq_getElem _ _ hk,
    List.getElem_map]

/-- C1: For every application of `Reflective(a)` with absorptivity `a ∈ [0,1]`
to a selected sub-bundle, each outgoing ray's energy equals its incoming ray's
energy multiplied by `(1 - a)`, exactly; with `a = 0` every energy is
unchanged, and the parents of the outgoing bundle equal `selected_indices`
(one outgoing ray per selected incoming ray). -/
theorem reflective_energy_conservation (a : ℝ) (ha0 : 0 ≤ a) (ha1 : a ≤ 1)
    (hits normals : List Vec3) (b : RayBundle) (selector : List ℕ) :
    (∀ k, k < selector.length →
        (reflectiveCall a hits normals b selector).energy.getD k 0
          = b.energyAt (selector.getD k 0) * (1 - a)) ∧
    (reflectiveCall a hits normals b selector).energy.length = selector.length ∧
    (reflectiveCall a hits normals b selector).parents = selector ∧
    (a = 0 → ∀ k, k < selector.length →
        (reflectiveCall a hits normals b selector).energy.getD k 0
          = b.energyAt (selector.getD k 0)) := by
  have key : ∀ k, k < selector.length →
      (reflectiveCall a hits normals b selector).energy.getD k 0
        = b.energyAt (selector.getD k 0) * (1 - a) := by
    intro k hk
    show (selector.map (fun i => b.energyAt i * (1 - a))).getD k 0
        = b.energyAt (selector.getD k 0) * (1 - a)
    exact getD_map_lt _ _ 0 _ k hk
  refine ⟨key, by simp [reflectiveCall], rfl, ?_⟩
  rintro rfl k hk
  simpa using key k hk

/-- A one-ray bundle heading straight down from `(0,0,1)`, used to
instantiate the general optics theorems. -/
def downBundle : RayBundle where
  vertices := [⟨0, 0, 1⟩]
  directions := [⟨0, 0, -1⟩]
  energy := [100]
  ref_index := [1]
  parents := []

/-- Witness for C1 at absorptivity `1/2` on a concrete one-ray bundle. -/
theorem reflective_energy_conservation_witness :
    (∀ k, k < ([0] : List ℕ).length →
        (reflectiveCall (1/2) (flatHits downBundle [0]) (flatNormals downBundle [0])
            downBundle [0]).energy.getD k 0
          = downBundle.energyAt (([0] : List ℕ).getD k 0) * (1 - 1/2)) ∧
    (reflectiveCall (1/2) (flatHits downBundle [0]) (flatNormals downBundle [0])
        downBundle [0]).energy.length = ([0] : List ℕ).length ∧
    (reflectiveCall (1/2) (flatHits downBundle [0]) (flatNormals downBundle [0])
        downBundle [0]).parents = [0] ∧
    ((1/2 : ℝ) = 0 → ∀ k, k < ([0] : List ℕ).length →
        (reflectiveCall (1/2) (flatHits downBundle [0]) (flatNormals downBundle [0])
            downBundle [0]).energy.getD k 0
          = downBundle.energyAt (([0] : List ℕ).getD k 0)) :=
  reflective_energy_conservation (1/2) (by norm_num) (by norm_num) _ _ downBundle [0]

/-! ### The four-ray concrete scenario of `TestReflective` -/

/-- Shorthand for `1/√3`, the component magnitude of the normalized test
directions. -/
def s3 : ℝ := (Real.sqrt 3)⁻¹

/-- The four-ray bundle of `TestReflective.setUp`: directions
`(1,1,-1), (-1,1,-1), (-1,-1,-1), (1,-1,-1)` normalized, positions
`(0,0,1), (1,-1,1), (1,1,1), (-1,1,1)`, energies `100/200/300/400`. -/
def fourRayBundle : RayBundle where
  vertices := [⟨0, 0, 1⟩, ⟨1, -1, 1⟩, ⟨1, 1, 1⟩, ⟨-1, 1, 1⟩]
  directions := [⟨s3, s3, -s3⟩, ⟨-s3, s3, -s3⟩, ⟨-s3, -s3, -s3⟩, ⟨s3, -s3, -s3⟩]
  energy := [100, 200, 300, 400]
  ref_index := [1, 1, 1, 1]
  parents := []

/-- C5: Four rays with directions `(1,1,−1),(−1,1,−1),(−1,−1,−1),(1,−1,−1)`
normalized, energies `100/200/300/400`, through `Reflective(0.1)` at the flat
origin plane: outgoing energies are exactly `90/180/270/360`, each outgoing
direction is the incoming direction with the sign of its `z`-component
flipped, and each outgoing position is the incoming position projected along
its direction onto the plane (hit points `(1,1,0),(0,0,0),(0,0,0),(0,0,0)`). -/
theorem reflective_four_ray_scenario :
    reflectiveCall 0.1 (flatHits fourRayBundle [0, 1, 2, 3])
        (flatNormals fourRayBundle [0, 1, 2, 3]) fourRayBundle [0, 1, 2, 3]
      = { vertices := [⟨1, 1, 0⟩, ⟨0, 0, 0⟩, ⟨0, 0, 0⟩, ⟨0, 0, 0⟩]
          directions := [⟨s3, s3, s3⟩, ⟨-s3, s3, s3⟩, ⟨-s3, -s3, s3⟩, ⟨s3, -s3, s3⟩]
          energy := [90, 180, 270, 360]
          ref_index := [1, 1, 1, 1]
          parents := [0, 1, 2, 3] } := by
  have h3 : (0 : ℝ) < Real.sqrt 3 := Real.sqrt_pos.mpr (by norm_num)
  have hs : (0 : ℝ) < s3 := by
    unfold s3
    exact inv_pos.mpr h3
  have hsne : s3 ≠ 0 := ne_of_gt hs
  have hneg : (-s3 : ℝ) < 0 := neg_lt_zero.mpr hs
  have hnorm : flatNormals fourRayBundle [0, 1, 2, 3]
      = [⟨0, 0, 1⟩, ⟨0, 0, 1⟩, ⟨0, 0, 1⟩, ⟨0, 0, 1⟩] := by
    simp [flatNormals, fourRayBundle, RayBundle.dirAt, colD, flatNormal, hneg]
  have hhits : flatHits fourRayBundle [0, 1, 2, 3]
      = [⟨1, 1, 0⟩, ⟨0, 0, 0⟩, ⟨0, 0, 0⟩, ⟨0, 0, 0⟩] := by
    simp [flatHits, flatHit, flatT, fourRayBundle, RayBundle.dirAt, RayBundle.posAt,
      colD, Vec3.add, Vec3.smul]
    field_simp
  rw [hnorm, hhits]
  simp only [reflectiveCall, selectCols, colD, fourRayBundle, RayBundle.energyAt,
    mirror, Vec3.sub, Vec3.smul, Vec3.dot, List.map, List.zipWith, List.getD]
  norm_num
  ring

/-! ### ReflectiveReceiver -/

/-- Modelled from the spec: the cumulative hit history of a
`ReflectiveReceiver` — "all absorbed energies, all hit points" across the
object's lifetime; empty at construction. -/
structure ReceiverHistory where
  absorbed : List ℝ
  hitPts : List Vec3

/-- A freshly constructed receiver history (no hits recorded yet). -/
def emptyHistory : ReceiverHistory := ⟨[], []⟩

/-- Modelled from the spec: `optics_callables.ReflectiveReceiver`;
`tracer/optics_callables.py` is absent from the snapshot.  "absorptivity
fixed at 1; outgoing energy = 0 for every selected ray; the callable appends
the incoming energy values and hit points of this invocation to a cumulative,
ever-growing history".  The Python object mutates its own buffers; here the
history is passed and returned explicitly. -/
def reflectiveReceiverCall (st : ReceiverHistory) (hits normals : List Vec3)
    (b : RayBundle) (selector : List ℕ) : RayBundle × ReceiverHistory :=
  (reflectiveCall 1 hits normals b selector,
   ⟨st.absorbed ++ selectCols b.energy 0 selector, st.hitPts ++ hits⟩)

/-- Accessor `get_all_hits()`: the pair (all absorbed energies, all hit points). -/
def getAllHits (st : ReceiverHistory) : List ℝ × List Vec3 :=
  (st.absorbed, st.hitPts)

/-- The receiver history after one call on the four-ray test bundle. -/
def recState1 : ReceiverHistory :=
  (reflectiveReceiverCall emptyHistory (flatHits fourRayBundle [0, 1, 2, 3])
    (flatNormals fourRayBundle [0, 1, 2, 3]) fourRayBundle [0, 1, 2, 3]).2

/-- The receiver history after a second, identical call. -/
def recState2 : ReceiverHistory :=
  (reflectiveReceiverCall recState1 (flatHits fourRayBundle [0, 1, 2, 3])
    (flatNormals fourRayBundle [0, 1, 2, 3]) fourRayBundle [0, 1, 2, 3]).2

/-- C4: Every `ReflectiveReceiver` application yields all-zero outgoing
energies, and the cumulative history (retrievable via `get_all_hits`) grows
by exactly the number of selected rays, appended after all prior entries and
never overwritten; after two successive calls on the same four-ray selection
the absorbed-energy history has length 8 and equals the two energy sets
concatenated. -/
theorem receiver_accumulates_history (st : ReceiverHistory)
    (hits normals : List Vec3) (b : RayBundle) (selector : List ℕ)
    (hlen : hits.length = selector.length) :
    (∀ e ∈ (reflectiveReceiverCall st hits normals b selector).1.energy, e = 0) ∧
    (getAllHits (reflectiveReceiverCall st hits normals b selector).2).1
      = st.absorbed ++ selectCols b.energy 0 selector ∧
    (getAllHits (reflectiveReceiverCall st hits normals b selector).2).1.length
      = st.absorbed.length + selector.length ∧
    (getAllHits (reflectiveReceiverCall st hits normals b selector).2).2
      = st.hitPts ++ hits ∧
    (getAllHits (reflectiveReceiverCall st hits normals b selector).2).2.length
      = st.hitPts.length + selector.length ∧
    (getAllHits recState2).1 = [100, 200, 300, 400] ++ [100, 200, 300, 400] ∧
    (getAllHits recState2).1.length = 8 := by
  refine ⟨?_, rfl, ?_, rfl, ?_, ?_, ?_⟩
  · intro e he
    simp only [reflectiveReceiverCall, reflectiveCall, List.mem_map] at he
    obtain ⟨i, _, hi⟩ := he
    rw [← hi]
    ring
  · simp [reflectiveReceiverCall, getAllHits, selectCols]
  · simp [reflectiveReceiverCall, getAllHits, hlen]
  · simp [recState2, recState1, reflectiveReceiverCall, getAllHits,
      emptyHistory, selectCols, colD, fourRayBundle]
  · simp [recState2, recState1, reflectiveReceiverCall, getAllHits,
      emptyHistory, selectCols, colD, fourRayBundle]

/-- Witness for C4 on a concrete one-ray bundle and empty prior history. -/
theorem receiver_accumulates_history_witness :
    (∀ e ∈ (reflectiveReceiverCall emptyHistory (flatHits downBundle [0])
        (flatNormals downBundle [0]) downBundle [0]).1.energy, e = 0) ∧
    (getAllHits (reflectiveReceiverCall emptyHistory (flatHits downBundle [0])
        (flatNormals downBundle [0]) downBundle [0]).2).1
      = emptyHistory.absorbed ++ selectCols downBundle.energy 0 [0] ∧
    (getAllHits (reflectiveReceiverCall emptyHistory (flatHits downBundle [0])
        (flatNormals downBundle [0]) downBundle [0]).2).1.length
      = emptyHistory.absorbed.length + ([0] : List ℕ).length ∧
    (getAllHits (reflectiveReceiverCall emptyHistory (flatHits downBundle [0])
        (flatNormals downBundle [0]) downBundle [0]).2).2
      = emptyHistory.hitPts ++ flatHits downBundle [0] ∧
    (getAllHits (reflectiveReceiverCall emptyHistory (flatHits downBundle [0])
        (flatNormals downBundle [0]) downBundle [0]).2).2.length
      = emptyHistory.hitPts.length + ([0] : List ℕ).length ∧
    (getAllHits recState2).1 = [100, 200, 300, 400] ++ [100, 200, 300, 400] ∧
    (getAllHits recState2).1.length = 8 :=
  receiver_accumulates_history emptyHistory _ _ downBundle [0]
    (by simp [flatHits])

/-! ### AbsorberReflector -/

/-- Modelled from the spec: `optics_callables.AbsorberReflector(absorptivity)`;
`tracer/optics_callables.py` is absent from the snapshot.  "one-sided
behavior using ray direction relative to the surface's defined up side —
rays arriving from the non-receiving side are absorbed (outgoing energy 0);
rays arriving from the receiving side are reflected with energy × (1 − a)".
`up` is the surface's geometric "up" normal (for the identity-placed flat
plane of the tests, `(0,0,1)`). -/
def absorberReflectorCall (a : ℝ) (up : Vec3) (hits normals : List Vec3)
    (b : RayBundle) (selector : List ℕ) : RayBundle :=
  let outg := reflectiveCall a hits normals b selector
  { outg with
    energy := selector.map (fun i =>
      if 0 < (b.dirAt i).dot up then 0 else b.energyAt i * (1 - a)) }

/-- The eight-ray bundle of `TestAbsorberReflector.test_up_down`: the four
normalized down-going test directions from above, then the same four with the
`z`-component made positive, launched from below; all energies 100. -/
def eightRayBundle : RayBundle where
  vertices := [⟨0, 0, 1⟩, ⟨1, -1, 1⟩, ⟨1, 1, 1⟩, ⟨-1, 1, 1⟩,
    ⟨0, 0, -1⟩, ⟨1, -1, -1⟩, ⟨1, 1, -1⟩, ⟨-1, 1, -1⟩]
  directions := [⟨s3, s3, -s3⟩, ⟨-s3, s3, -s3⟩, ⟨-s3, -s3, -s3⟩, ⟨s3, -s3, -s3⟩,
    ⟨s3, s3, s3⟩, ⟨-s3, s3, s3⟩, ⟨-s3, -s3, s3⟩, ⟨s3, -s3, s3⟩]
  energy := [100, 100, 100, 100, 100, 100, 100, 100]
  ref_index := [1, 1, 1, 1, 1, 1, 1, 1]
  parents := []

/-- C7: `AbsorberReflector(a)` gives outgoing energy exactly 0 to rays
arriving from the non-receiving side (direction with positive component
along "up") and energy × (1 − a) to rays arriving from the receiving side;
concretely, with `a = 0`, the four down-going test rays keep energy 100 each
and the four up-going ones get energy 0 each. -/
theorem absorber_reflector_one_sided (a : ℝ) (up : Vec3)
    (hits normals : List Vec3) (b : RayBundle) (selector : List ℕ)
    (k : ℕ) (hk : k < selector.length) :
    (0 < (b.dirAt (selector.getD k 0)).dot up →
      (absorberReflectorCall a up hits normals b selector).energy.getD k 0 = 0) ∧
    ((b.dirAt (selector.getD k 0)).dot up < 0 →
      (absorberReflectorCall a up hits normals b selector).energy.getD k 0
        = b.energyAt (selector.getD k 0) * (1 - a)) ∧
    (absorberReflectorCall 0 ⟨0, 0, 1⟩ (flatHits eightRayBundle [0, 1, 2, 3, 4, 5, 6, 7])
        (flatNormals eightRayBundle [0, 1, 2, 3, 4, 5, 6, 7]) eightRayBundle
        [0, 1, 2, 3, 4, 5, 6, 7]).energy
      = [100, 100, 100, 100, 0, 0, 0, 0] := by
  have hget : (absorberReflectorCall a up hits normals b selector).energy.getD k 0
      = (if 0 < (b.dirAt (selector.getD k 0)).dot up then 0
         else b.energyAt (selector.getD k 0) * (1 - a)) := by
    show (selector.map (fun i =>
        if 0 < (b.dirAt i).dot up then 0 else b.energyAt i * (1 - a))).getD k 0 = _
    exact getD_map_lt _ _ 0 _ k hk
  have h3 : (0 : ℝ) < Real.sqrt 3 := Real.sqrt_pos.mpr (by norm_num)
  have hs : (0 : ℝ) < s3 := by
    unfold s3
    exact inv_pos.mpr h3
  refine ⟨fun hpos => ?_, fun hneg => ?_, ?_⟩
  · rw [hget, if_pos hpos]
  · rw [hget, if_neg (by linarith)]
  · simp only [absorberReflectorCall, reflectiveCall, eightRayBundle,
      RayBundle.dirAt, RayBundle.energyAt, colD, Vec3.dot, List.map, List.getD]
    norm_num [hs, not_lt.mpr (le_of_lt (neg_lt_zero.mpr hs))]

/-- Witness for C7: the down-going ray 0 (receiving side) and the up-going
ray 4 (non-receiving side) of the eight-ray scenario. -/
theorem absorber_reflector_one_sided_witness :
    ((0 : ℝ) < (eightRayBundle.dirAt (([4] : List ℕ).getD 0 0)).dot ⟨0, 0, 1⟩ →
      (absorberReflectorCall 0 ⟨0, 0, 1⟩ (flatHits eightRayBundle [4])
        (flatNormals eightRayBundle [4]) eightRayBundle [4]).energy.getD 0 0 = 0) ∧
    ((0 : ℝ) < (eightRayBundle.dirAt (([4] : List ℕ).getD 0 0)).dot ⟨0, 0, 1⟩) ∧
    (absorberReflectorCall 0 ⟨0, 0, 1⟩ (flatHits eightRayBundle [4])
        (flatNormals eightRayBundle [4]) eightRayBundle [4]).energy.getD 0 0 = 0 := by
  have h3 : (0 : ℝ) < Real.sqrt 3 := Real.sqrt_pos.mpr (by norm_num)
  have hs : (0 : ℝ) < s3 := by
    unfold s3
    exact inv_pos.mpr h3
  have hdot : (0 : ℝ) < (eightRayBundle.dirAt (([4] : List ℕ).getD 0 0)).dot ⟨0, 0, 1⟩ := by
    simp only [eightRayBundle, RayBundle.dirAt, colD, Vec3.dot, List.getD]
    norm_num [hs]
  have h := absorber_reflector_one_sided 0 ⟨0, 0, 1⟩ (flatHits eightRayBundle [4])
    (flatNormals eightRayBundle [4]) eightRayBundle [4] 0 (by norm_num)
  exact ⟨h.1, hdot, h.1 hdot⟩

/-! ### RefractiveHomogenous

Modelled from the spec (§4.3): `tracer/optics_callables.py` is absent from the
snapshot.  "computes the angle of incidence from the normal; applies Snell's
law ...  If the critical-angle condition is exceeded (total internal
reflection), the ray is *only* reflected (outgoing energy = full incoming
energy, direction mirrored) — no refracted branch ...  Otherwise, produces two
outgoing rays per incoming ray: a reflected branch (Fresnel reflectance
fraction of energy, direction mirrored) and a refracted branch (remaining
energy fraction, direction bent per Snell's law, travelling into the new
medium with `ref_index` updated)."  The shipped test `test_TIR` applies
`RefractiveHomogenous(1., 1.5)` to a ray whose `ref_index` is 1.5 and expects
total internal reflection, which fixes the per-ray medium transition: each
ray's current medium is read from the bundle's `ref_index` field and toggled
to the *other* of the two constructor indices. -/

/-- The medium a ray transitions into: the other one of the pair `(n1, n2)`
held by the callable, relative to the ray's current `ref_index`. -/
def toggleRefIdx (n1 n2 cur : ℝ) : ℝ := if cur = n1 then n2 else n1

/-- The per-ray working data of one `RefractiveHomogenous` application:
the selected ray's index, hit point, direction, surface normal, current and
next refractive index, and energy. -/
structure RefrRow where
  idx : ℕ
  hit : Vec3
  d : Vec3
  nrm : Vec3
  nIn : ℝ
  nOut : ℝ
  e : ℝ

namespace RefrRow

/-- Cosine of the incidence angle, from the face-the-ray normal. -/
def cosI (r : RefrRow) : ℝ := -(r.d.dot r.nrm)

/-- Squared sine of the transmission angle per Snell's law. -/
def sinSqT (r : RefrRow) : ℝ := (r.nIn / r.nOut) ^ 2 * (1 - r.cosI ^ 2)

/-- The critical-angle test: total internal reflection exactly when Snell's
law has no real transmission angle. -/
def tir (r : RefrRow) : Bool := 1 < r.sinSqT

/-- Cosine of the transmission angle. -/
def cosT (r : RefrRow) : ℝ := Real.sqrt (1 - r.sinSqT)

/-- Direction of the reflected branch: specular mirror about the normal. -/
def reflDir (r : RefrRow) : Vec3 := mirror r.d r.nrm

/-- Direction of the refracted branch per Snell's law. -/
def refrDir (r : RefrRow) : Vec3 :=
  (Vec3.smul (r.nIn / r.nOut) r.d).add
    (Vec3.smul (r.nIn / r.nOut * r.cosI - r.cosT) r.nrm)

/-- Fresnel reflectance: the unpolarized average of the squared s- and
p-polarization amplitude ratios. -/
def fresnelR (r : RefrRow) : ℝ :=
  (((r.nIn * r.cosI - r.nOut * r.cosT) / (r.nIn * r.cosI + r.nOut * r.cosT)) ^ 2
    + ((r.nIn * r.cosT - r.nOut * r.cosI) / (r.nIn * r.cosT + r.nOut * r.cosI)) ^ 2) / 2

/-- Energy of the reflected branch: the full incoming energy under total
internal reflection, else the Fresnel reflectance fraction. -/
def reflE (r : RefrRow) : ℝ := if r.tir then r.e else r.fresnelR * r.e

/-- Energy of the refracted branch: the remaining energy fraction. -/
def refrE (r : RefrRow) : ℝ := (1 - r.fresnelR) * r.e

end RefrRow

/-- Builds the working row for the selected ray `i`, given the geometry
manager's `(hit point, normal)` answer for it. -/
def mkRefrRow (n1 n2 : ℝ) (b : RayBundle) (i : ℕ) (hn : Vec3 × Vec3) : RefrRow where
  idx := i
  hit := hn.1
  d := b.dirAt i
  nrm := hn.2
  nIn := b.refIndexAt i
  nOut := toggleRefIdx n1 n2 (b.refIndexAt i)
  e := b.energyAt i

/-- The rows of one application, aligned with `selector`. -/
def refrRows (n1 n2 : ℝ) (hits normals : List Vec3) (b : RayBundle)
    (selector : List ℕ) : List RefrRow :=
  List.zipWith (mkRefrRow n1 n2 b) selector (hits.zip normals)

/-- The callable `optics_callables.RefractiveHomogenous(n1, n2)` applied to a selected
sub-bundle: all reflected branches first (one per selected ray), then the
refracted branches of the rays without total internal reflection, each group
in `selector` order; parents of every branch is the index of the incoming ray
it descends from. -/
def refractiveCall (n1 n2 : ℝ) (hits normals : List Vec3) (b : RayBundle)
    (selector : List ℕ) : RayBundle :=
  let rows := refrRows n1 n2 hits normals b selector
  let thru := rows.filter (fun r => !r.tir)
  { vertices := rows.map RefrRow.hit ++ thru.map RefrRow.hit
    directions := rows.map RefrRow.reflDir ++ thru.map RefrRow.refrDir
    energy := rows.map RefrRow.reflE ++ thru.map RefrRow.refrE
    ref_index := rows.map RefrRow.nIn ++ thru.map RefrRow.nOut
    parents := rows.map RefrRow.idx ++ thru.map RefrRow.idx }

/-- A default row, used only as the irrelevant base of in-range `getD`
lookups. -/
def dRow : RefrRow := ⟨0, Vec3.zero, Vec3.zero, Vec3.zero, 0, 0, 0⟩

/-- Mapping `zipWith` of a left-projecting function recovers the left list whenever
the right list is at least as long. -/
theorem zipWith_left_proj {α β : Type} :
    ∀ (as : List α) (bs : List β), as.length ≤ bs.length →
      List.zipWith (fun a _ => a) as bs = as := by
  intro as
  induction as with
  | nil => intro bs _; rfl
  | cons a as ih =>
    intro bs hb
    cases bs with
    | nil => simp at hb
    | cons b bs =>
      simp only [List.zipWith, List.cons.injEq, true_and]
      exact ih bs (Nat.le_of_succ_le_succ hb)

/-- The rows of one refractive application are aligned 1-to-1 with
`selector` when the geometry manager answered for every selected ray. -/
theorem refrRows_length (n1 n2 : ℝ) (hits normals : List Vec3) (b : RayBundle)
    (selector : List ℕ) (h1 : hits.length = selector.length)
    (h2 : normals.length = selector.length) :
    (refrRows n1 n2 hits normals b selector).length = selector.length := by
  simp [refrRows, h1, h2]

/-- The row indices of one refractive application are exactly `selector`. -/
theorem refrRows_map_idx (n1 n2 : ℝ) (hits normals : List Vec3) (b : RayBundle)
    (selector : List ℕ) (h1 : hits.length = selector.length)
    (h2 : normals.length = selector.length) :
    (refrRows n1 n2 hits normals b selector).map RefrRow.idx = selector := by
  rw [refrRows, List.map_zipWith]
  have : (fun (i : ℕ) (hn : Vec3 × Vec3) => (mkRefrRow n1 n2 b i hn).idx)
      = fun (i : ℕ) (_ : Vec3 × Vec3) => i := rfl
  rw [this, zipWith_left_proj]
  simp [h1, h2]

/-- The `k`-th row is the row built for the `k`-th selected ray. -/
theorem refrRows_getD (n1 n2 : ℝ) (hits normals : List Vec3) (b : RayBundle)
    (selector : List ℕ) (k : ℕ) (h1 : hits.length = selector.length)
    (h2 : normals.length = selector.length) (hk : k < selector.length) :
    (refrRows n1 n2 hits normals b selector).getD k dRow
      = mkRefrRow n1 n2 b (selector.getD k 0)
          ((hits.zip normals).getD k (Vec3.zero, Vec3.zero)) := by
  have hzl : (hits.zip normals).length = selector.length := by simp [h1, h2]
  have hrk : k < (refrRows n1 n2 hits normals b selector).length := by
    rw [refrRows_length n1 n2 hits normals b selector h1 h2]
    exact hk
  rw [List.getD_eq_getElem _ _ hrk, List.getD_eq_getElem _ _ hk,
    List.getD_eq_getElem _ _ (hzl ▸ hk)]
  simp [refrRows]

/-- With no total internal reflection in the batch, the refracted group
keeps every row. -/
theorem refr_filter_all (n1 n2 : ℝ) (hits normals : List Vec3) (b : RayBundle)
    (selector : List ℕ)
    (hnt : ∀ r ∈ refrRows n1 n2 hits normals b selector, r.tir = false) :
    (refrRows n1 n2 hits normals b selector).filter (fun r => !r.tir)
      = refrRows n1 n2 hits normals b selector :=
  List.filter_eq_self.mpr (fun r hr => by simp [hnt r hr])

/-- C2: For every `RefractiveHomogenous(n1, n2)` application with no total
internal reflection in the batch, the energy of each ray's reflected branch
plus the energy of its refracted branch equals the incoming ray's energy. -/
theorem refractive_split_conservation (n1 n2 : ℝ) (hits normals : List Vec3)
    (b : RayBundle) (selector : List ℕ) (k : ℕ)
    (h1 : hits.length = selector.length) (h2 : normals.length = selector.length)
    (hnt : ∀ r ∈ refrRows n1 n2 hits normals b selector, r.tir = false)
    (hk : k < selector.length) :
    (refractiveCall n1 n2 hits normals b selector).energy.getD k 0
      + (refractiveCall n1 n2 hits normals b selector).energy.getD
          (selector.length + k) 0
      = b.energyAt (selector.getD k 0) := by
  have hrl : (refrRows n1 n2 hits normals b selector).length = selector.length :=
    refrRows_length n1 n2 hits normals b selector h1 h2
  have hen : (refractiveCall n1 n2 hits normals b selector).energy
      = (refrRows n1 n2 hits normals b selector).map RefrRow.reflE
        ++ (refrRows n1 n2 hits normals b selector).map RefrRow.refrE := by
    simp only [refractiveCall, refr_filter_all n1 n2 hits normals b selector hnt]
  have hmlen : ((refrRows n1 n2 hits normals b selector).map RefrRow.reflE).length
      = selector.length := by simp [hrl]
  have hkr : k < (refrRows n1 n2 hits normals b selector).length := hrl ▸ hk
  have hleft : (refractiveCall n1 n2 hits normals b selector).energy.getD k 0
      = RefrRow.reflE ((refrRows n1 n2 hits normals b selector).getD k dRow) := by
    rw [hen, List.getD_append _ _ 0 k (hmlen ▸ hk)]
    exact getD_map_lt _ _ dRow 0 k hkr
  have hright : (refractiveCall n1 n2 hits normals b selector).energy.getD
        (selector.length + k) 0
      = RefrRow.refrE ((refrRows n1 n2 hits normals b selector).getD k dRow) := by
    rw [hen, List.getD_append_right _ _ 0 _ (hmlen ▸ Nat.le_add_right _ k)]
    rw [hmlen, Nat.add_sub_cancel_left]
    exact getD_map_lt _ _ dRow 0 k hkr
  set r := (refrRows n1 n2 hits normals b selector).getD k dRow with hrdef
  have hrmem : r ∈ refrRows n1 n2 hits normals b selector := by
    rw [hrdef, List.getD_eq_getElem _ _ hkr]
    exact List.getElem_mem hkr
  have hrt : r.tir = false := hnt r hrmem
  have hre : r.e = b.energyAt (selector.getD k 0) := by
    rw [hrdef, refrRows_getD n1 n2 hits normals b selector k h1 h2 hk]
    rfl
  rw [hleft, hright, RefrRow.reflE, hrt, RefrRow.refrE]
  simp only [Bool.false_eq_true, if_false]
  rw [← hre]
  ring

/-- C6: For every `RefractiveHomogenous` application with no total internal
reflection, the outgoing bundle lists all reflected branches first and then
all refracted branches, each group in `selected_indices` order, and the
parents of both groups equal `selected_indices` (so `get_parents()` is
`selected_indices` repeated twice). -/
theorem refractive_groups_order (n1 n2 : ℝ) (hits normals : List Vec3)
    (b : RayBundle) (selector : List ℕ)
    (h1 : hits.length = selector.length) (h2 : normals.length = selector.length)
    (hnt : ∀ r ∈ refrRows n1 n2 hits normals b selector, r.tir = false) :
    (refractiveCall n1 n2 hits normals b selector).parents
      = selector ++ selector ∧
    (refractiveCall n1 n2 hits normals b selector).directions
      = (refrRows n1 n2 hits normals b selector).map RefrRow.reflDir
        ++ (refrRows n1 n2 hits normals b selector).map RefrRow.refrDir ∧
    (refractiveCall n1 n2 hits normals b selector).energy
      = (refrRows n1 n2 hits normals b selector).map RefrRow.reflE
        ++ (refrRows n1 n2 hits normals b selector).map RefrRow.refrE ∧
    (refractiveCall n1 n2 hits normals b selector).ref_index
      = (refrRows n1 n2 hits normals b selector).map RefrRow.nIn
        ++ (refrRows n1 n2 hits normals b selector).map RefrRow.nOut := by
  have hfil := refr_filter_all n1 n2 hits normals b selector hnt
  have hidx := refrRows_map_idx n1 n2 hits normals b selector h1 h2
  refine ⟨?_, ?_, ?_, ?_⟩ <;> simp only [refractiveCall, hfil, hidx]

/-- The one-row batch of `downBundle` at normal incidence has no total
internal reflection. -/
theorem downBundle_no_tir :
    ∀ r ∈ refrRows 1 1.5 [⟨0, 0, 0⟩] [⟨0, 0, 1⟩] downBundle [0], r.tir = false := by
  intro r hr
  have hre : r = mkRefrRow 1 1.5 downBundle 0 (⟨0, 0, 0⟩, ⟨0, 0, 1⟩) := by
    simpa [refrRows] using hr
  subst hre
  simp only [RefrRow.tir, RefrRow.sinSqT, RefrRow.cosI, mkRefrRow, downBundle,
    RayBundle.dirAt, RayBundle.refIndexAt, colD, Vec3.dot, toggleRefIdx,
    List.getD, decide_eq_false_iff_not]
  norm_num

/-- Witness for C2 at normal incidence from medium 1 into medium 1.5. -/
theorem refractive_split_conservation_witness :
    (refractiveCall 1 1.5 [⟨0, 0, 0⟩] [⟨0, 0, 1⟩] downBundle [0]).energy.getD 0 0
      + (refractiveCall 1 1.5 [⟨0, 0, 0⟩] [⟨0, 0, 1⟩] downBundle [0]).energy.getD
          (([0] : List ℕ).length + 0) 0
      = downBundle.energyAt (([0] : List ℕ).getD 0 0) :=
  refractive_split_conservation 1 1.5 [⟨0, 0, 0⟩] [⟨0, 0, 1⟩] downBundle [0] 0
    (by simp) (by simp) downBundle_no_tir (by simp)

/-- Witness for C6 at normal incidence from medium 1 into medium 1.5. -/
theorem refractive_groups_order_witness :
    (refractiveCall 1 1.5 [⟨0, 0, 0⟩] [⟨0, 0, 1⟩] downBundle [0]).parents
      = [0] ++ [0] ∧
    (refractiveCall 1 1.5 [⟨0, 0, 0⟩] [⟨0, 0, 1⟩] downBundle [0]).directions
      = (refrRows 1 1.5 [⟨0, 0, 0⟩] [⟨0, 0, 1⟩] downBundle [0]).map RefrRow.reflDir
        ++ (refrRows 1 1.5 [⟨0, 0, 0⟩] [⟨0, 0, 1⟩] downBundle [0]).map RefrRow.refrDir ∧
    (refractiveCall 1 1.5 [⟨0, 0, 0⟩] [⟨0, 0, 1⟩] downBundle [0]).energy
      = (refrRows 1 1.5 [⟨0, 0, 0⟩] [⟨0, 0, 1⟩] downBundle [0]).map RefrRow.reflE
        ++ (refrRows 1 1.5 [⟨0, 0, 0⟩] [⟨0, 0, 1⟩] downBundle [0]).map RefrRow.refrE ∧
    (refractiveCall 1 1.5 [⟨0, 0, 0⟩] [⟨0, 0, 1⟩] downBundle [0]).ref_index
      = (refrRows 1 1.5 [⟨0, 0, 0⟩] [⟨0, 0, 1⟩] downBundle [0]).map RefrRow.nIn
        ++ (refrRows 1 1.5 [⟨0, 0, 0⟩] [⟨0, 0, 1⟩] downBundle [0]).map RefrRow.nOut :=
  refractive_groups_order 1 1.5 [⟨0, 0, 0⟩] [⟨0, 0, 1⟩] downBundle [0]
    (by simp) (by simp) downBundle_no_tir

/-- C3: A selected ray whose incidence angle exceeds the critical angle gets
only a reflected outgoing ray — the outgoing bundle for a single-ray
selection has exactly one ray, its energy is the full incoming energy, its
direction is the incoming direction mirrored about the surface normal, and
no refracted branch is produced. -/
theorem refractive_tir_only_reflected (n1 n2 : ℝ) (hit nrm : Vec3)
    (b : RayBundle) (i : ℕ)
    (htir : (mkRefrRow n1 n2 b i (hit, nrm)).tir = true) :
    refractiveCall n1 n2 [hit] [nrm] b [i]
      = { vertices := [hit]
          directions := [mirror (b.dirAt i) nrm]
          energy := [b.energyAt i]
          ref_index := [b.refIndexAt i]
          parents := [i] } := by
  have hrows : refrRows n1 n2 [hit] [nrm] b [i]
      = [mkRefrRow n1 n2 b i (hit, nrm)] := by
    simp [refrRows]
  simp only [mkRefrRow] at htir
  simp [refractiveCall, hrows, mkRefrRow, htir, RefrRow.reflE, RefrRow.reflDir]

/-- The single-ray bundle of `test_TIR`: direction
`(0, cos 1°, −sin 1°)` (incidence angle 89°), energy 100, travelling in a
medium of refractive index 1.5. -/
def tirBundle : RayBundle where
  vertices := [⟨0, 0, 1⟩]
  directions := [⟨0, Real.cos (Real.pi / 180), -Real.sin (Real.pi / 180)⟩]
  energy := [100]
  ref_index := [1.5]
  parents := []

/-- The bound `cos 1° > 2/3` that puts the 89°-incidence test ray beyond
the critical angle of the 1.5 → 1.0 transition. -/
theorem cos_one_deg_gt : (2 / 3 : ℝ) < Real.cos (Real.pi / 180) := by
  have hpi : (0 : ℝ) < Real.pi := Real.pi_pos
  have h1 : Real.cos (Real.pi / 4) ≤ Real.cos (Real.pi / 180) := by
    apply Real.cos_le_cos_of_nonneg_of_le_pi
    · positivity
    · linarith
    · linarith
  have h2 : (2 / 3 : ℝ) < Real.cos (Real.pi / 4) := by
    rw [Real.cos_pi_div_four]
    nlinarith [Real.sq_sqrt (show (0 : ℝ) ≤ 2 by norm_num), Real.sqrt_nonneg 2]
  linarith

/-- The 89°-incidence ray of `test_TIR` triggers the critical-angle test of
`RefractiveHomogenous(1.0, 1.5)`. -/
theorem tirBundle_tir :
    (mkRefrRow 1 1.5 tirBundle 0
      (⟨0, 0, 0⟩, flatNormal (tirBundle.dirAt 0))).tir = true := by
  have hsin : 0 < Real.sin (Real.pi / 180) :=
    Real.sin_pos_of_pos_of_lt_pi (by positivity) (by linarith [Real.pi_pos])
  have hnrm : flatNormal (tirBundle.dirAt 0) = ⟨0, 0, 1⟩ := by
    rw [flatNormal, if_pos]
    show -Real.sin (Real.pi / 180) < 0
    linarith
  have hcos := cos_one_deg_gt
  have hpyth := Real.sin_sq_add_cos_sq (Real.pi / 180)
  rw [hnrm]
  simp only [RefrRow.tir, RefrRow.sinSqT, RefrRow.cosI, mkRefrRow, tirBundle,
    RayBundle.dirAt, RayBundle.refIndexAt, colD, Vec3.dot, toggleRefIdx,
    List.getD, decide_eq_true_eq]
  norm_num
  nlinarith [hcos, hpyth]

/-- Witness for C3: the single 89°-incidence ray of `test_TIR` travelling in
medium 1.5 toward medium 1.0 yields an outgoing bundle with exactly one ray,
energy unchanged at 100, direction mirrored to `(0, cos 1°, sin 1°)`. -/
theorem refractive_tir_only_reflected_witness :
    (mkRefrRow 1 1.5 tirBundle 0
        (⟨0, 0, 0⟩, flatNormal (tirBundle.dirAt 0))).tir = true ∧
    refractiveCall 1 1.5 [⟨0, 0, 0⟩] [flatNormal (tirBundle.dirAt 0)] tirBundle [0]
      = { vertices := [⟨0, 0, 0⟩]
          directions := [⟨0, Real.cos (Real.pi / 180), Real.sin (Real.pi / 180)⟩]
          energy := [100]
          ref_index := [1.5]
          parents := [0] } := by
  refine ⟨tirBundle_tir, ?_⟩
  rw [refractive_tir_only_reflected 1 1.5 ⟨0, 0, 0⟩ (flatNormal (tirBundle.dirAt 0))
    tirBundle 0 tirBundle_tir]
  have hsin : 0 < Real.sin (Real.pi / 180) :=
    Real.sin_pos_of_pos_of_lt_pi (by positivity) (by linarith [Real.pi_pos])
  have hnrm : flatNormal (tirBundle.dirAt 0) = ⟨0, 0, 1⟩ := by
    rw [flatNormal, if_pos]
    show -Real.sin (Real.pi / 180) < 0
    linarith
  rw [hnrm]
  simp only [mirror, Vec3.sub, Vec3.smul, Vec3.dot, tirBundle, RayBundle.dirAt,
    RayBundle.energyAt, RayBundle.refIndexAt, colD, List.getD]
  norm_num
  ring

/-- C10: `RefractiveHomogenous(n1, n2)` reads each ray's current medium from
the bundle's `ref_index` field, not from the constructor argument order: a
ray whose `ref_index` equals `n2` transitions from `n2` into `n1`, a ray
whose `ref_index` equals `n1` transitions from `n1` into `n2`; in particular
`RefractiveHomogenous(1.0, 1.5)` applied to the 89° ray with `ref_index` 1.5
undergoes total internal reflection into the rarer medium. -/
theorem refractive_medium_from_ref_index (n1 n2 : ℝ) (b : RayBundle) (i : ℕ)
    (hit nrm : Vec3) :
    (b.refIndexAt i = n2 → n2 ≠ n1 →
      (mkRefrRow n1 n2 b i (hit, nrm)).nIn = n2 ∧
      (mkRefrRow n1 n2 b i (hit, nrm)).nOut = n1) ∧
    (b.refIndexAt i = n1 →
      (mkRefrRow n1 n2 b i (hit, nrm)).nIn = n1 ∧
      (mkRefrRow n1 n2 b i (hit, nrm)).nOut = n2) ∧
    ((mkRefrRow 1 1.5 tirBundle 0
        (⟨0, 0, 0⟩, flatNormal (tirBundle.dirAt 0))).nIn = 1.5 ∧
     (mkRefrRow 1 1.5 tirBundle 0
        (⟨0, 0, 0⟩, flatNormal (tirBundle.dirAt 0))).nOut = 1 ∧
     (mkRefrRow 1 1.5 tirBundle 0
        (⟨0, 0, 0⟩, flatNormal (tirBundle.dirAt 0))).tir = true) := by
  refine ⟨fun h2 hne => ⟨h2, ?_⟩, fun h1 => ⟨h1, ?_⟩, ?_, ?_, tirBundle_tir⟩
  · show toggleRefIdx n1 n2 (b.refIndexAt i) = n1
    rw [toggleRefIdx, h2, if_neg hne]
  · show toggleRefIdx n1 n2 (b.refIndexAt i) = n2
    rw [toggleRefIdx, h1, if_pos rfl]
  · show tirBundle.refIndexAt 0 = 1.5
    rfl
  · show toggleRefIdx 1 1.5 (tirBundle.refIndexAt 0) = 1
    rw [toggleRefIdx]
    rw [if_neg]
    show ¬(1.5 : ℝ) = 1
    norm_num

/-- Witness for C10: the `n2`-medium case at the 89° ray (medium 1.5 of the
pair `(1.0, 1.5)`) and the `n1`-medium case at the normal-incidence ray
(medium 1 of the same pair). -/
theorem refractive_medium_from_ref_index_witness :
    ((mkRefrRow 1 1.5 tirBundle 0
        (⟨0, 0, 0⟩, flatNormal (tirBundle.dirAt 0))).nIn = 1.5 ∧
     (mkRefrRow 1 1.5 tirBundle 0
        (⟨0, 0, 0⟩, flatNormal (tirBundle.dirAt 0))).nOut = 1) ∧
    ((mkRefrRow 1 1.5 downBundle 0 (⟨0, 0, 0⟩, ⟨0, 0, 1⟩)).nIn = 1 ∧
     (mkRefrRow 1 1.5 downBundle 0 (⟨0, 0, 0⟩, ⟨0, 0, 1⟩)).nOut = 1.5) ∧
    (mkRefrRow 1 1.5 tirBundle 0
        (⟨0, 0, 0⟩, flatNormal (tirBundle.dirAt 0))).tir = true :=
  ⟨(refractive_medium_from_ref_index 1 1.5 tirBundle 0 ⟨0, 0, 0⟩
      (flatNormal (tirBundle.dirAt 0))).1 rfl (by norm_num),
   (refractive_medium_from_ref_index 1 1.5 downBundle 0 ⟨0, 0, 0⟩ ⟨0, 0, 1⟩).2.1 rfl,
   (refractive_medium_from_ref_index 1 1.5 tirBundle 0 ⟨0, 0, 0⟩
      (flatNormal (tirBundle.dirAt 0))).2.2.2.2⟩

/-! ### RayBundle construction and mutation validation

Modelled from the spec (§4.1, §7): `tracer/ray_bundle.py` is absent from the
snapshot.  "construct from explicit arrays (with consistency validation) ...
Fails with a ShapeMismatch condition if any field's length disagrees with the
others at construction or mutation time."  A bundle under construction (the
test builds one field-by-field with setters) has optional fields. -/

/-- The error taxonomy of the design (§7). -/
inductive TracerError where
  | ShapeMismatch
  | GeometryInconsistency
  | InvalidMedium
  | AssemblyEmpty
  deriving DecidableEq

/-- A ray bundle under construction: each per-ray field may be absent. -/
structure RawBundle where
  vertices : Option (List Vec3)
  directions : Option (List Vec3)
  energy : Option (List ℝ)
  ref_index : Option (List ℝ)
  parents : Option (List ℕ)

namespace RawBundle

/-- The lengths of the fields present on a raw bundle. -/
def lengths (b : RawBundle) : List ℕ :=
  (b.vertices.map List.length).toList ++ (b.directions.map List.length).toList
    ++ (b.energy.map List.length).toList ++ (b.ref_index.map List.length).toList
    ++ (b.parents.map List.length).toList

/-- The bundle invariant: "all per-ray sequences for a bundle have equal
length N". -/
def consistent (b : RawBundle) : Prop :=
  ∀ m ∈ b.lengths, ∀ n ∈ b.lengths, m = n

end RawBundle

/-- The consistency check as the code would run it: each present field's
length is compared against the first present field's. -/
def checkLengths : List ℕ → Bool
  | [] => true
  | n :: rest => rest.all (fun m => m == n)

/-- Construction- and mutation-time validation: the bundle when its present
field lengths agree, `ShapeMismatch` otherwise. -/
def RawBundle.validate (b : RawBundle) : Except TracerError RawBundle :=
  if checkLengths b.lengths then .ok b else .error .ShapeMismatch

/-- Constructor `RayBundle(vertices, directions, energy=..., ...)` from explicit arrays,
with consistency validation. -/
def mkRayBundle (vs ds : Option (List Vec3)) (en : Option (List ℝ))
    (ri : Option (List ℝ)) (pa : Option (List ℕ)) :
    Except TracerError RawBundle :=
  RawBundle.validate ⟨vs, ds, en, ri, pa⟩

/-- Setter `bund.set_vertices(vs)` with mutation-time validation. -/
def RawBundle.set_vertices (b : RawBundle) (vs : List Vec3) :
    Except TracerError RawBundle :=
  RawBundle.validate { b with vertices := some vs }

/-- Setter `bund.set_directions(ds)` with mutation-time validation. -/
def RawBundle.set_directions (b : RawBundle) (ds : List Vec3) :
    Except TracerError RawBundle :=
  RawBundle.validate { b with directions := some ds }

/-- Setter `bund.set_energy(en)` with mutation-time validation. -/
def RawBundle.set_energy (b : RawBundle) (en : List ℝ) :
    Except TracerError RawBundle :=
  RawBundle.validate { b with energy := some en }

/-- Setter `bund.set_ref_index(ri)` with mutation-time validation. -/
def RawBundle.set_ref_index (b : RawBundle) (ri : List ℝ) :
    Except TracerError RawBundle :=
  RawBundle.validate { b with ref_index := some ri }

/-- The operational first-against-rest length check decides exactly the
all-pairs-equal bundle invariant. -/
theorem checkLengths_iff (l : List ℕ) :
    checkLengths l = true ↔ ∀ m ∈ l, ∀ n ∈ l, m = n := by
  cases l with
  | nil => simp [checkLengths]
  | cons n rest =>
    rw [checkLengths, List.all_eq_true]
    constructor
    · intro h m hm k hk
      have hme : m = n := by
        rcases List.mem_cons.mp hm with h1 | h1
        · exact h1
        · exact eq_of_beq (h m h1)
      have hke : k = n := by
        rcases List.mem_cons.mp hk with h1 | h1
        · exact h1
        · exact eq_of_beq (h k h1)
      rw [hme, hke]
    · intro h m hm
      have := h m (List.mem_cons_of_mem n hm) n (List.mem_cons_self n rest)
      exact beq_iff_eq.mpr this

/-- Validation errors with `ShapeMismatch` exactly on inconsistency and
returns the bundle unchanged exactly on consistency. -/
theorem validate_cases (b : RawBundle) :
    (b.validate = .error .ShapeMismatch ↔ ¬b.consistent) ∧
    (b.validate = .ok b ↔ b.consistent) := by
  by_cases hc : checkLengths b.lengths = true
  · rw [RawBundle.validate, if_pos hc]
    have hcons : b.consistent := (checkLengths_iff b.lengths).mp hc
    exact ⟨⟨fun h => absurd h (by simp), fun h => absurd hcons h⟩,
      ⟨fun _ => hcons, fun _ => rfl⟩⟩
  · rw [RawBundle.validate, if_neg hc]
    have hnc : ¬b.consistent := fun h => hc ((checkLengths_iff b.lengths).mpr h)
    exact ⟨⟨fun _ => hnc, fun _ => rfl⟩,
      ⟨fun h => absurd h (by simp), fun h => absurd h hnc⟩⟩

/-- C8: Constructing a `RayBundle` from explicit arrays, or mutating one of
its per-ray fields, fails with `ShapeMismatch` exactly when some field's
length disagrees with the others, and succeeds otherwise. -/
theorem bundle_shape_validation (vs ds : Option (List Vec3))
    (en ri : Option (List ℝ)) (pa : Option (List ℕ)) :
    (mkRayBundle vs ds en ri pa = .error .ShapeMismatch ↔
      ¬RawBundle.consistent ⟨vs, ds, en, ri, pa⟩) ∧
    (mkRayBundle vs ds en ri pa = .ok ⟨vs, ds, en, ri, pa⟩ ↔
      RawBundle.consistent ⟨vs, ds, en, ri, pa⟩) ∧
    (∀ (b : RawBundle) (vs2 : List Vec3),
      (b.set_vertices vs2 = .error .ShapeMismatch ↔
        ¬RawBundle.consistent { b with vertices := some vs2 }) ∧
      (b.set_vertices vs2 = .ok { b with vertices := some vs2 } ↔
        RawBundle.consistent { b with vertices := some vs2 })) ∧
    (∀ (b : RawBundle) (ds2 : List Vec3),
      (b.set_directions ds2 = .error .ShapeMismatch ↔
        ¬RawBundle.consistent { b with directions := some ds2 }) ∧
      (b.set_directions ds2 = .ok { b with directions := some ds2 } ↔
        RawBundle.consistent { b with directions := some ds2 })) ∧
    (∀ (b : RawBundle) (en2 : List ℝ),
      (b.set_energy en2 = .error .ShapeMismatch ↔
        ¬RawBundle.consistent { b with energy := some en2 }) ∧
      (b.set_energy en2 = .ok { b with energy := some en2 } ↔
        RawBundle.consistent { b with energy := some en2 })) ∧
    (∀ (b : RawBundle) (ri2 : List ℝ),
      (b.set_ref_index ri2 = .error .ShapeMismatch ↔
        ¬RawBundle.consistent { b with ref_index := some ri2 }) ∧
      (b.set_ref_index ri2 = .ok { b with ref_index := some ri2 } ↔
        RawBundle.consistent { b with ref_index := some ri2 })) :=
  ⟨(validate_cases _).1, (validate_cases _).2,
   fun b vs2 => validate_cases { b with vertices := some vs2 },
   fun b ds2 => validate_cases { b with directions := some ds2 },
   fun b en2 => validate_cases { b with energy := some en2 },
   fun b ri2 => validate_cases { b with ref_index := some ri2 }⟩

/-! ### Tracer Engine

Modelled from the spec (§4.4): `tracer/tracer_engine.py` is absent from the
snapshot.  A surface of the assembly is its geometry manager's per-ray
contract (intersection parameter, hit point, normal) together with its optics
callable; a trace iterates intersect → global nearest-hit selection →
partition → per-surface optics → merge, bounded by the repetition budget and
stopping when a generation is empty.  Rays below the minimum-energy threshold
are dropped at selection time. -/

/-- One (geometry manager, optics callable) pair of the assembly. -/
structure Surface where
  param : Vec3 → Vec3 → Option ℝ
  hitPoint : Vec3 → Vec3 → Vec3
  normal : Vec3 → Vec3 → Vec3
  optics : List Vec3 → List Vec3 → RayBundle → List ℕ → RayBundle

/-- Merges one surface's intersection parameter with the best answer among
the later surfaces (already index-shifted): a later surface wins only with a
*strictly* smaller parameter, so ties resolve to the lowest assembly index. -/
def nearestMerge (p : Option ℝ) (tl : Option (ℕ × ℝ)) : Option (ℕ × ℝ) :=
  match p, tl with
  | none, tl => tl
  | some t, none => some (0, t)
  | some t, some (s, t2) => if t2 < t then some (s, t2) else some (0, t)

/-- Global nearest-hit selection for one ray across the assembly:
`params` lists each surface's intersection parameter (`none` being the
no-intersection sentinel); the result is the winning surface index and its
parameter. -/
def nearestHit : List (Option ℝ) → Option (ℕ × ℝ)
  | [] => none
  | p :: rest => nearestMerge p ((nearestHit rest).map (fun q => (q.1 + 1, q.2)))

/-- Evaluation of `nearestMerge` with no parameter for the head surface. -/
theorem nearestMerge_none_left (tl : Option (ℕ × ℝ)) : nearestMerge none tl = tl := rfl

/-- Evaluation of `nearestMerge` when only the head surface intersects. -/
theorem nearestMerge_some_none (t : ℝ) : nearestMerge (some t) none = some (0, t) := rfl

/-- Evaluation of `nearestMerge` when both the head surface and a later one intersect. -/
theorem nearestMerge_some_some (t : ℝ) (s : ℕ) (t2 : ℝ) :
    nearestMerge (some t) (some (s, t2))
      = if t2 < t then some (s, t2) else some (0, t) := rfl

/-- A `none` answer of nearest-hit selection means every surface missed. -/
theorem nearestHit_eq_none :
    ∀ (ps : List (Option ℝ)), nearestHit ps = none →
      ∀ k, ps.getD k none = none := by
  intro ps
  induction ps with
  | nil => intro _ k; simp
  | cons p rest ih =>
    intro h k
    rw [nearestHit] at h
    cases hp : p with
    | some t =>
      rw [hp] at h
      cases hr : nearestHit rest with
      | none =>
        rw [hr, show Option.map (fun q => (q.1 + 1, q.2)) (none : Option (ℕ × ℝ))
          = none from rfl, nearestMerge_some_none] at h
        exact absurd h (by simp)
      | some q =>
        obtain ⟨qs, qt⟩ := q
        rw [hr, show Option.map (fun q => (q.1 + 1, q.2)) (some (qs, qt))
          = some (qs + 1, qt) from rfl, nearestMerge_some_some] at h
        by_cases hlt : qt < t
        · rw [if_pos hlt] at h
          exact absurd h (by simp)
        · rw [if_neg hlt] at h
          exact absurd h (by simp)
    | none =>
      rw [hp, nearestMerge_none_left] at h
      have hrest : nearestHit rest = none := by
        cases hr : nearestHit rest with
        | none => rfl
        | some q => rw [hr] at h; exact absurd h (by simp)
      cases k with
      | zero => simp
      | succ k => simpa using ih hrest k

/-- Soundness of nearest-hit selection: the winner is an in-range surface
whose parameter is the reported one, no surface reports a strictly smaller
parameter, and every *earlier* surface reports a strictly larger one (the
lowest-index-wins tie-break of the design). -/
theorem nearestHit_spec :
    ∀ (ps : List (Option ℝ)) (s : ℕ) (t : ℝ), nearestHit ps = some (s, t) →
      s < ps.length ∧ ps.getD s none = some t ∧
      (∀ k t2, ps.getD k none = some t2 → t ≤ t2) ∧
      (∀ k t2, k < s → ps.getD k none = some t2 → t < t2) := by
  intro ps
  induction ps with
  | nil => intro s t h; exact absurd h (by simp [nearestHit])
  | cons p rest ih =>
    intro s t h
    rw [nearestHit] at h
    cases hp : p with
    | none =>
      rw [hp, nearestMerge_none_left] at h
      cases hr : nearestHit rest with
      | none => rw [hr] at h; exact absurd h (by simp)
      | some q =>
        obtain ⟨qs, qt⟩ := q
        rw [hr, show Option.map (fun q => (q.1 + 1, q.2)) (some (qs, qt))
          = some (qs + 1, qt) from rfl] at h
        injection Option.some.inj h with hs ht
        subst hs; subst ht
        obtain ⟨ih1, ih2, ih3, ih4⟩ := ih qs qt hr
        refine ⟨by simp only [List.length_cons]; omega, by simpa using ih2, ?_, ?_⟩
        · intro k t2 hk
          cases k with
          | zero => exact absurd hk (by simp)
          | succ k => exact ih3 k t2 (by simpa using hk)
        · intro k t2 hks hk
          cases k with
          | zero => exact absurd hk (by simp)
          | succ k => exact ih4 k t2 (Nat.lt_of_succ_lt_succ hks) (by simpa using hk)
    | some t0 =>
      rw [hp] at h
      cases hr : nearestHit rest with
      | none =>
        rw [hr, show Option.map (fun q => (q.1 + 1, q.2)) (none : Option (ℕ × ℝ))
          = none from rfl, nearestMerge_some_none] at h
        injection Option.some.inj h with hs ht
        subst hs; subst ht
        refine ⟨by simp, by simp, ?_, ?_⟩
        · intro k t2 hk
          cases k with
          | zero => exact le_of_eq (by simpa using hk)
          | succ k =>
            have hk2 : rest.getD k none = some t2 := by simpa using hk
            rw [nearestHit_eq_none rest hr k] at hk2
            exact absurd hk2 (by simp)
        · intro k t2 hks
          exact absurd hks (Nat.not_lt_zero k)
      | some q =>
        obtain ⟨qs, qt⟩ := q
        rw [hr, show Option.map (fun q => (q.1 + 1, q.2)) (some (qs, qt))
          = some (qs + 1, qt) from rfl, nearestMerge_some_some] at h
        obtain ⟨ih1, ih2, ih3, ih4⟩ := ih qs qt hr
        by_cases hlt : qt < t0
        · rw [if_pos hlt] at h
          injection Option.some.inj h with hs ht
          subst hs; subst ht
          refine ⟨by simp only [List.length_cons]; omega, by simpa using ih2, ?_, ?_⟩
          · intro k t2 hk
            cases k with
            | zero =>
              have he : t0 = t2 := by simpa using hk
              subst he
              exact le_of_lt hlt
            | succ k => exact ih3 k t2 (by simpa using hk)
          · intro k t2 hks hk
            cases k with
            | zero =>
              have he : t0 = t2 := by simpa using hk
              subst he
              exact hlt
            | succ k => exact ih4 k t2 (Nat.lt_of_succ_lt_succ hks) (by simpa using hk)
        · rw [if_neg hlt] at h
          injection Option.some.inj h with hs ht
          subst hs; subst ht
          refine ⟨by simp, by simp, ?_, ?_⟩
          · intro k t2 hk
            cases k with
            | zero => exact le_of_eq (by simpa using hk)
            | succ k => exact le_trans (not_lt.mp hlt) (ih3 k t2 (by simpa using hk))
          · intro k t2 hks
            exact absurd hks (Nat.not_lt_zero k)

/-- Number of rays in a bundle (the energy column's length). -/
def RayBundle.numRays (b : RayBundle) : ℕ := b.energy.length

/-- Bundle concatenation: the "horizontal join over the ray axis" used to
merge the surfaces' outgoing sub-bundles. -/
def RayBundle.concatB (b1 b2 : RayBundle) : RayBundle where
  vertices := b1.vertices ++ b2.vertices
  directions := b1.directions ++ b2.directions
  energy := b1.energy ++ b2.energy
  ref_index := b1.ref_index ++ b2.ref_index
  parents := b1.parents ++ b2.parents

/-- The empty bundle (the seed of a generation merge). -/
def emptyBundle : RayBundle := ⟨[], [], [], [], []⟩

/-- The default surface for out-of-range assembly lookups (never reached by
the engine, which iterates over in-range indices only). -/
def defSurface : Surface where
  param := fun _ _ => none
  hitPoint := fun _ _ => Vec3.zero
  normal := fun _ _ => Vec3.zero
  optics := fun _ _ _ _ => emptyBundle

/-- Step 1 of the loop: the intersection parameters of ray `i` of the
current bundle against every surface of the assembly. -/
def rayParams (asm : List Surface) (b : RayBundle) (i : ℕ) : List (Option ℝ) :=
  asm.map (fun srf => srf.param (b.posAt i) (b.dirAt i))

/-- Steps 2–3: the ray indices won by surface `s` under global nearest-hit
selection, in order, dropping rays below the minimum-energy threshold. -/
def surfaceSelection (asm : List Surface) (minE : ℝ) (b : RayBundle)
    (s : ℕ) : List ℕ :=
  (List.range b.numRays).filter (fun i =>
    decide (minE ≤ b.energyAt i)
      && ((nearestHit (rayParams asm b i)).map Prod.fst == some s))

/-- Steps 4–5: per-surface geometry re-query (`select_rays` then hit points
and normals) and optics, merged in assembly order into the next generation's
bundle. -/
def engineStep (asm : List Surface) (minE : ℝ) (b : RayBundle) : RayBundle :=
  (List.range asm.length).foldr
    (fun s acc =>
      let srf := asm.getD s defSurface
      let sel := surfaceSelection asm minE b s
      let hits := sel.map (fun i => srf.hitPoint (b.posAt i) (b.dirAt i))
      let normals := sel.map (fun i => srf.normal (b.posAt i) (b.dirAt i))
      (srf.optics hits normals b sel).concatB acc)
    emptyBundle

/-- Steps 6–7: one full run as the sequence of generations, stopping on an
empty generation or when the repetition budget is exhausted. -/
def traceGenerations (asm : List Surface) (minE : ℝ) :
    RayBundle → ℕ → List RayBundle
  | b, 0 => [b]
  | b, reps + 1 =>
    if b.numRays = 0 then [b]
    else b :: traceGenerations asm minE (engineStep asm minE b) reps

/-- The energies of the last generation of a run. -/
def finalEnergies (asm : List Surface) (minE : ℝ) (b : RayBundle)
    (reps : ℕ) : List ℝ :=
  ((traceGenerations asm minE b reps).getLastD emptyBundle).energy

/-- C9: Running the engine twice with identical assembly, configuration and
initial bundle produces identical generation sequences and identical final
energies; and when two surfaces report numerically identical minimal
intersection parameters for the same ray, nearest-hit selection
deterministically picks the lower assembly index. -/
theorem engine_deterministic_tie_break :
    (∀ (asm1 asm2 : List Surface) (minE1 minE2 : ℝ) (b1 b2 : RayBundle)
        (reps : ℕ), asm1 = asm2 → minE1 = minE2 → b1 = b2 →
      traceGenerations asm1 minE1 b1 reps = traceGenerations asm2 minE2 b2 reps ∧
      finalEnergies asm1 minE1 b1 reps = finalEnergies asm2 minE2 b2 reps) ∧
    (∀ (params : List (Option ℝ)) (i j : ℕ) (t : ℝ),
      i < j → j < params.length →
      params.getD i none = some t → params.getD j none = some t →
      (∀ k t2, params.getD k none = some t2 → t ≤ t2) →
      (∀ k t2, k < i → params.getD k none = some t2 → t < t2) →
      nearestHit params = some (i, t)) := by
  constructor
  · rintro asm1 asm2 minE1 minE2 b1 b2 reps rfl rfl rfl
    exact ⟨rfl, rfl⟩
  · intro params i j t hij hj hi hjv hmin hfirst
    cases hnh : nearestHit params with
    | none =>
      rw [nearestHit_eq_none params hnh i] at hi
      exact absurd hi (by simp)
    | some q =>
      obtain ⟨s, ts⟩ := q
      obtain ⟨hs1, hs2, hs3, hs4⟩ := nearestHit_spec params s ts hnh
      have hts : ts = t := le_antisymm (hs3 i t hi) (hmin s ts hs2)
      subst hts
      rcases Nat.lt_trichotomy s i with hsi | hsi | hsi
      · exact absurd (hfirst s ts hsi hs2) (lt_irrefl ts)
      · rw [hsi]
      · exact absurd (hs4 i ts hsi hi) (lt_irrefl ts)

/-- A single identity-placed flat mirror, for instantiating the engine. -/
def flatSurface : Surface where
  param := flatParam
  hitPoint := flatHit
  normal := fun _ d => flatNormal d
  optics := reflectiveCall 0

/-- Witness for C9: a one-mirror run compared with itself, and a tie at
parameter 1 between surfaces 0 and 1 resolved to surface 0. -/
theorem engine_deterministic_tie_break_witness :
    (traceGenerations [flatSurface] 0 downBundle 1
        = traceGenerations [flatSurface] 0 downBundle 1 ∧
     finalEnergies [flatSurface] 0 downBundle 1
        = finalEnergies [flatSurface] 0 downBundle 1) ∧
    nearestHit [some 1, some 1, none] = some (0, 1) := by
  refine ⟨engine_deterministic_tie_break.1 [flatSurface] [flatSurface] 0 0
      downBundle downBundle 1 rfl rfl rfl,
    engine_deterministic_tie_break.2 [some 1, some 1, none] 0 1 1
      (by norm_num) (by simp) rfl rfl ?_ ?_⟩
  · intro k t2 hk
    match k with
    | 0 => exact le_of_eq (by simpa using hk)
    | 1 => exact le_of_eq (by simpa using hk)
    | 2 => exact absurd hk (by simp)
    | (n + 3) =>
      rw [List.getD_eq_default _ _
        (by simp only [List.length_cons, List.length_nil]; omega)] at hk
      exact absurd hk (by simp)
  · exact fun k t2 hk _ => absurd hk (Nat.not_lt_zero k)

end Tracer
